import Mathlib

/-!
Verification of the Hansen–Law Abel-transform core
(`src/abel/hansenlaw.py`, function `hansenlaw_transform`).

Numbers are modelled as real numbers (`ℝ`).  A numpy array is modelled as a
total function from indices to `ℝ` together with its dimensions; values at
out-of-bounds indices are junk and all theorems are stated within bounds or
about data that is zero everywhere.  The two external collaborators are
handled as follows:

* the sub-pixel shifter (`scipy.ndimage.interpolation.shift`) is out of
  scope for the repository, so `hansenlaw_transform` is parameterized by an
  arbitrary `shifter` function and every theorem quantifies over it;
* the differentiator (`np.gradient(IM, dr, axis=-1)`) is embedded with
  numpy's documented default semantics (see `npGradient` below).

Fallible operations return `Except String`.
-/

noncomputable section

/-- A 1D profile (length, entries) or a 2D half-image (rows, cols, entries),
the two input/output forms accepted by `hansenlaw_transform`
(`IM : 1D or 2D numpy array`). -/
inductive Img where
  | one (len : ℕ) (v : ℕ → ℝ)
  | two (rows cols : ℕ) (v : ℕ → ℕ → ℝ)

/-- Number of rows of `np.atleast_2d(IM)` (a 1D array becomes one row). -/
def Img.nrows2d : Img → ℕ
  | .one _ _ => 1
  | .two r _ _ => r

/-- Number of columns of `np.atleast_2d(IM)`. -/
def Img.ncols : Img → ℕ
  | .one len _ => len
  | .two _ c _ => c

/-- Entries of `np.atleast_2d(IM)` as a function of (row, column). -/
def Img.entry2d : Img → ℕ → ℕ → ℝ
  | .one _ v => fun _ j => v j
  | .two _ _ v => fun i j => v i j

/-- The shape of an `Img` as a list of dimensions (`np.shape`). -/
def shapeOf : Img → List ℕ
  | .one len _ => [len]
  | .two r c _ => [r, c]

/-- Number of terms in the Hansen & Law expansion: `K = np.size(h)` (line 129). -/
def K : ℕ := 9

/-- Hansen & Law constants `h` as listed in Table 1 (line 117).
Indices `k ≥ 9` do not exist in the source array; they are junk (0) here and
are never used (all sums and formulas range over `k < K`). -/
def h : ℕ → ℝ
  | 0 => 0.318
  | 1 => 0.19
  | 2 => 0.35
  | 3 => 0.82
  | 4 => 1.8
  | 5 => 3.9
  | 6 => 8.3
  | 7 => 19.6
  | 8 => 48.3
  | _ => 0

/-- Hansen & Law constants `lam` as listed in Table 1 (lines 118-119).
Indices `k ≥ 9` are junk (0), never used. -/
def lam : ℕ → ℝ
  | 0 => 0.0
  | 1 => -2.1
  | 2 => -6.2
  | 3 => -22.4
  | 4 => -92.5
  | 5 => -414.5
  | 6 => -1889.4
  | 7 => -8990.9
  | 8 => -47391.1
  | _ => 0

/-- Value of the numpy array `n = np.arange(cols-2, -1, -1)` at position `i`
(line 124): `n[i] = cols - 2 - i`, computed in `ℤ` (no truncation). -/
def nArrVal (cols i : ℕ) : ℤ := (cols : ℤ) - 2 - (i : ℤ)

/-- Value of the numpy array `denom = cols - n - 1` at position `i` (line 125). -/
def denomArr (cols i : ℕ) : ℤ := (cols : ℤ) - nArrVal cols i - 1

/-- Value of the numpy array `ratio = (cols-n)/denom` at position `i`
(line 126), a float (real) division. -/
def ratioArr (cols i : ℕ) : ℝ :=
  ((cols : ℤ) - nArrVal cols i : ℤ) / ((denomArr cols i : ℤ) : ℝ)

/-- Entry `Phi[i, k]` of the `(cols-1, K)` array built in lines 130-133:
`Phi[:, 0] = 1` and `Phi[:, k] = ratio**lam[k]` for `k ≥ 1` (real power,
the base `ratio[i]` is positive). -/
def Phi (cols i k : ℕ) : ℝ :=
  if k = 0 then 1 else ratioArr cols i ^ lam k

/-- Entry `Gamma[i, k]` for the forward transform (lines 138-141):
`Gamma[:, k] = h[k]*2*denom*(1 - ratio**lam1[k])/lam1[k]` with
`lam1 = lam + 1`, followed by the in-place scaling `Gamma *= -np.pi*dr`. -/
def GammaFwd (cols : ℕ) (dr : ℝ) (i k : ℕ) : ℝ :=
  h k * 2 * ((denomArr cols i : ℤ) : ℝ) * (1 - ratioArr cols i ^ (lam k + 1)) / (lam k + 1)
    * (-(Real.pi * dr))

/-- Entry `Gamma[i, k]` for the inverse transform (lines 146-148):
`Gamma[:, 0] = -h[0]*np.log(ratio)` and
`Gamma[:, k] = h[k]*(1 - Phi[:, k])/lam[k]` for `k ≥ 1`. -/
def GammaInv (cols i k : ℕ) : ℝ :=
  if k = 0 then -(h 0 * Real.log (ratioArr cols i))
  else h k * (1 - Phi cols i k) / lam k

/-- The Gamma array selected by the direction branch (lines 137 and 145). -/
def gammaOf (cols : ℕ) (dr : ℝ) (direction : String) : ℕ → ℕ → ℝ :=
  if direction = "forward" then GammaFwd cols dr else GammaInv cols

/-- Error message for `np.gradient` on an axis with fewer than 2 samples. -/
def gradErrMsg : String := "Shape of array too small to calculate a numerical gradient, at least 2 elements are required."

/-- Error message for `np.zeros((cols-1, K))` when `cols = 0` (line 130). -/
def negDimMsg : String := "negative dimensions are not allowed"

/-- Entries of `np.gradient(f, dr, axis=-1)` for an array with `cols`
columns: one-sided first differences at the two edge columns, central
differences in the interior (numpy default `edge_order = 1`). -/
def gradFun (cols : ℕ) (f : ℕ → ℕ → ℝ) (dr : ℝ) : ℕ → ℕ → ℝ :=
  fun r j =>
    if j = 0 then (f r 1 - f r 0) / dr
    else if j = cols - 1 then (f r (cols - 1) - f r (cols - 2)) / dr
    else (f r (j + 1) - f r (j - 1)) / (2 * dr)

/-- Modelled from the spec: the external Differentiator collaborator used at
line 151, `np.gradient(IM, dr, axis=-1)`, is numpy code, not code of this
repository.  It is embedded with numpy's documented semantics: central
differences in the interior, one-sided differences at the two edge columns
(the spec's standard discrete-gradient semantics), and numpy raises
`ValueError` when the differentiation axis holds fewer than
`edge_order + 1 = 2` samples. -/
def npGradient (cols : ℕ) (f : ℕ → ℕ → ℝ) (dr : ℝ) : Except String (ℕ → ℕ → ℝ) :=
  if cols < 2 then Except.error gradErrMsg else Except.ok (gradFun cols f dr)

/-- The driving signal of the recurrence before the optional shift:
the raw image for the forward transform (line 143), its column-wise
gradient for the inverse transform (line 151). -/
def drivingSignal (cols : ℕ) (f : ℕ → ℕ → ℝ) (dr : ℝ) (direction : String) :
    Except String (ℕ → ℕ → ℝ) :=
  if direction = "forward" then Except.ok f else npGradient cols f dr

/-- The list of column values visited by the sweep, `n = cols-2, ..., 0`
(`for col in n`, lines 124 and 160). -/
def nList (cols : ℕ) : List ℕ :=
  (List.range (cols - 1)).map (fun i => cols - 2 - i)

/-- One state update of the recurrence, line 161:
`X = Phi[col][:, None]*X + Gamma[col][:, None]*gp[:, col]`.
`col` is used as a positional row index into the `Phi`/`Gamma` arrays
(`Ph` and `Gam` take (array position, mode `k`)). -/
def stepX (Ph Gam : ℕ → ℕ → ℝ) (gp : ℕ → ℕ → ℝ) (col : ℕ) (X : ℕ → ℕ → ℝ) :
    ℕ → ℕ → ℝ :=
  fun k r => Ph col k * X k r + Gam col k * gp r col

/-- The recurrence sweep, lines 159-162: starting from `X = 0` and
`AIM = np.zeros_like(IM)`, for each `col` in the list update the state with
`stepX` and write `AIM[:, col] = X.sum(axis=0)` (sum over the `K` modes). -/
def sweep (Ph Gam : ℕ → ℕ → ℝ) (gp : ℕ → ℕ → ℝ) :
    List ℕ → ((ℕ → ℕ → ℝ) × (ℕ → ℕ → ℝ)) → ((ℕ → ℕ → ℝ) × (ℕ → ℕ → ℝ))
  | [], XA => XA
  | col :: rest, XA =>
      sweep Ph Gam gp rest
        (stepX Ph Gam gp col XA.1,
         fun r c => if c = col then ∑ k ∈ Finset.range K, stepX Ph Gam gp col XA.1 k r
                    else XA.2 r c)

/-- The output array `AIM` produced by the sweep: starting from the all-zero
state `X = np.zeros((K, rows))` (line 159) and the all-zero output
`AIM = np.zeros_like(IM)` (line 114), run the recurrence over
`n = cols-2, ..., 0` and keep the output component. -/
def sweepA (cols : ℕ) (Gam : ℕ → ℕ → ℝ) (gp : ℕ → ℕ → ℝ) : ℕ → ℕ → ℝ :=
  (sweep (Phi cols) Gam gp (nList cols) (fun _ _ => 0, fun _ _ => 0)).2

/-- The returned image (lines 164-166): the working 2D array `A`, flattened
to a 1D vector when `AIM.shape[0] == 1`. -/
def outImg (rows cols : ℕ) (A : ℕ → ℕ → ℝ) : Img :=
  if rows = 1 then Img.one cols (fun j => A 0 j) else Img.two rows cols A

/-- The body of `hansenlaw_transform` after `np.atleast_2d` (lines 113-166),
on a working array of shape `(rows, cols)` with entries `f`.
`shifter` is the external SubpixelShifter collaborator
(`scipy.ndimage.interpolation.shift` with offsets `(0, shift)`), out of
scope for this repository and therefore a parameter.
The `cols = 0` guard models `np.zeros((cols-1, K))` (line 130) rejecting a
negative dimension; afterwards the direction branch selects the Gamma array
and the driving signal, the sub-pixel shift is applied only when
`|shift| > 1.0e-3` (lines 155-156), the sweep runs over `n = cols-2, ..., 0`,
and the result is flattened to 1D when the working array has a single row
(lines 164-165). -/
def hansenlaw_core (shifter : (ℕ → ℕ → ℝ) → ℝ → ℕ → ℕ → ℝ)
    (rows cols : ℕ) (f : ℕ → ℕ → ℝ) (dr : ℝ) (direction : String) (shift : ℝ) :
    Except String Img :=
  if cols = 0 then Except.error negDimMsg
  else
    (drivingSignal cols f dr direction).bind fun gpRaw =>
      Except.ok (outImg rows cols (sweepA cols (gammaOf cols dr direction)
        (if |shift| > 1e-3 then shifter gpRaw shift else gpRaw)))

/-- `hansenlaw_transform(IM, dr, direction, shift)` (lines 35-167):
`np.atleast_2d` turns a 1D input into a single-row 2D working array
(line 113), then the core runs. -/
def hansenlaw_transform (shifter : (ℕ → ℕ → ℝ) → ℝ → ℕ → ℕ → ℝ)
    (IM : Img) (dr : ℝ) (direction : String) (shift : ℝ) : Except String Img :=
  hansenlaw_core shifter IM.nrows2d IM.ncols IM.entry2d dr direction shift

/-- `true` exactly when the call returned a result (did not raise). -/
def isOkB : Except String Img → Bool
  | Except.ok _ => true
  | Except.error _ => false

/-- The output shape the `np.atleast_2d` / flattening pair actually
produces for a given input: a 1D input stays 1D; a 2D input is flattened
to 1D exactly when it has a single row (`AIM.shape[0] == 1`, line 164). -/
def expectedShape : Img → List ℕ
  | .one len _ => [len]
  | .two r c _ => if r = 1 then [c] else [r, c]

/-- All in-bounds entries of an image are zero. -/
def Img.allZero : Img → Prop
  | .one len v => ∀ j, j < len → v j = 0
  | .two r c v => ∀ i j, i < r → j < c → v i j = 0

/-- The last (outer-edge) column of the output is identically zero. -/
def lastColZero : Img → Prop
  | .one len v => v (len - 1) = 0
  | .two _ c v => ∀ i, v i (c - 1) = 0

/-- The all-zero output in the form the function returns it: flattened to 1D
when the working array has a single row. -/
def zeroImg (rows cols : ℕ) : Img :=
  if rows = 1 then Img.one cols (fun _ => 0) else Img.two rows cols (fun _ _ => 0)

/-- The per-column ratio exactly as the spec's GeometryFactors section words
it: `ratio(n) = (cols - n) / denom(n)` with `denom(n) = cols - n - 1`,
`n` being the column the sweep is writing.  Stated only to be compared with
what the code actually uses at column `n` (see claim C2). -/
def ratioSpecC2 (cols n : ℕ) : ℝ :=
  ((cols : ℝ) - (n : ℝ)) / ((cols : ℝ) - (n : ℝ) - 1)

/-!
Store-level model for the frame claim (C10).

Python/numpy statements are modelled over an explicit heap of arrays: a
`PyState` holds an allocation counter and a memory mapping addresses to
array contents (as (index, index) → ℝ functions; a 1D array uses the first
index only).  `np.zeros_like`, `np.zeros`, `np.gradient`,
`interpolation.shift` and the vectorized expression on line 161 each
allocate a fresh array; `gp = IM` on line 143 copies the address (an
alias); the only in-place writes of the function are the column fills of
`Phi`/`Gamma` (collapsed into their allocations below, which does not
change which addresses are written) and `AIM[:, col] = X.sum(axis=0)` on
line 162.
-/

/-- A heap of numpy arrays: next fresh address and memory contents. -/
structure PyState where
  next : ℕ
  mem : ℕ → ℕ → ℕ → ℝ

/-- Allocate a fresh array with contents `v`; returns its address. -/
def alloc (v : ℕ → ℕ → ℝ) (s : PyState) : ℕ × PyState :=
  (s.next, ⟨s.next + 1, fun a => if a = s.next then v else s.mem a⟩)

/-- In-place write of column `col` of the array at address `a`
(`AIM[:, col] = ...`). -/
def writeCol (a col : ℕ) (v : ℕ → ℝ) (s : PyState) : PyState :=
  ⟨s.next, fun b => if b = a then (fun r c => if c = col then v r else s.mem a r c)
                    else s.mem b⟩

/-- One iteration of the recurrence loop (lines 161-162) over the heap,
with `aX` the current address of `X`: read `Phi[col]`, `Gamma[col]` and
`gp[:, col]` from the heap, allocate the new state array (the vectorized
expression on line 161 builds a fresh array at address `s.next` and `X` is
rebound to it), then write column `col` of `AIM` in place. -/
def loopStep (aPhi aGam aAIM aGp col aX : ℕ) (s : PyState) : ℕ × PyState :=
  let s2 := (alloc (fun k r =>
    s.mem aPhi col k * s.mem aX k r + s.mem aGam col k * s.mem aGp r col) s).2
  (s.next, writeCol aAIM col (fun r => ∑ k ∈ Finset.range K, s2.mem s.next k r) s2)

/-- The recurrence loop `for col in n` (line 160) over the heap. -/
def loopPy (aPhi aGam aAIM aGp : ℕ) : List ℕ → ℕ × PyState → ℕ × PyState
  | [], xs => xs
  | col :: rest, xs => loopPy aPhi aGam aAIM aGp rest (loopStep aPhi aGam aAIM aGp col xs.1 xs.2)

/-- The tail of the heap-level run after the driving signal is in hand
(`gs` = address of `gp` and current state): the optional sub-pixel shift
allocates a fresh array (line 156), `X = np.zeros((K, rows))` allocates
(line 159), then the loop runs. -/
def runTail (shifter : (ℕ → ℕ → ℝ) → ℝ → ℕ → ℕ → ℝ) (shift : ℝ)
    (aPhi aGam aAIM cols : ℕ) (gs : ℕ × PyState) : PyState :=
  let r5 := if |shift| > 1e-3 then alloc (shifter (gs.2.mem gs.1) shift) gs.2 else gs
  let r6 := alloc (fun _ _ => 0) r5.2
  (loopPy aPhi aGam aAIM r5.1 (nList cols) (r6.1, r6.2)).2

/-- The body of `hansenlaw_transform` over the heap.  `aIM` is the address
of the caller's (2D working view of the) image; the returned state is the
final heap and the returned value the address of `AIM` (or the raised
error).  Allocation order follows the source: `AIM` (line 114), `Phi`
(line 130, column fills collapsed into the allocation), `Gamma` (line 136,
fills and the in-place `*= -pi*dr` scaling collapsed), then `gp` — an
alias of `aIM` for the forward direction (line 143), a fresh gradient
array for the inverse (line 151) — and the tail above. -/
def runPy (shifter : (ℕ → ℕ → ℝ) → ℝ → ℕ → ℕ → ℝ)
    (aIM cols : ℕ) (dr : ℝ) (direction : String) (shift : ℝ) (s0 : PyState) :
    PyState × Except String ℕ :=
  let r1 := alloc (fun _ _ => 0) s0
  if cols = 0 then (r1.2, Except.error negDimMsg)
  else
    let r2 := alloc (fun i k => Phi cols i k) r1.2
    let r3 := alloc (fun i k => gammaOf cols dr direction i k) r2.2
    match (if direction = "forward"
           then Except.ok (aIM, r3.2)
           else (npGradient cols (r3.2.mem aIM) dr).map (fun g => alloc g r3.2)) with
    | Except.error e => (r3.2, Except.error e)
    | Except.ok gs => (runTail shifter shift r2.1 r3.1 r1.1 cols gs, Except.ok r1.1)

/-!  Basic facts about the embedding, shared by the claim proofs. -/

/-- `denom[i] = i + 1`: position `i` of the `denom` array holds `i + 1`
(the `n` array is descending, so positions run opposite to column values). -/
theorem denomArr_eq (cols i : ℕ) : denomArr cols i = (i : ℤ) + 1 := by
  simp [denomArr, nArrVal]; ring

/-- `ratio[i] = (i+2)/(i+1)`: position `i` of the `ratio` array. -/
theorem ratioArr_eq (cols i : ℕ) : ratioArr cols i = ((i : ℝ) + 2) / ((i : ℝ) + 1) := by
  unfold ratioArr
  rw [denomArr_eq]
  unfold nArrVal
  push_cast
  ring_nf

/-- `ratio[i] > 0`. -/
theorem ratioArr_pos (cols i : ℕ) : 0 < ratioArr cols i := by
  rw [ratioArr_eq]
  positivity

/-- Every column value in the sweep list satisfies `col + 2 ≤ cols`. -/
theorem nList_bound (cols x : ℕ) (hx : x ∈ nList cols) : x + 2 ≤ cols := by
  rcases List.mem_map.mp hx with ⟨i, hi, rfl⟩
  rw [List.mem_range] at hi
  omega

/-- Conversely every column `n` with `n + 2 ≤ cols` is visited by the sweep. -/
theorem mem_nList (cols n : ℕ) (hn : n + 2 ≤ cols) : n ∈ nList cols := by
  refine List.mem_map.mpr ⟨cols - 2 - n, List.mem_range.mpr ?_, ?_⟩ <;> omega

/-- The sweep never touches a column outside its list: the output array
keeps its initial value there. -/
theorem sweep_snd_of_not_mem (Ph Gam gp : _) (l : List ℕ) (XA) (r c : ℕ)
    (hc : c ∉ l) : (sweep Ph Gam gp l XA).2 r c = XA.2 r c := by
  induction l generalizing XA with
  | nil => rfl
  | cons col rest ih =>
      have hcol : ¬(c = col) := by
        intro heq
        exact hc (by rw [heq]; exact List.mem_cons_self _ _)
      rw [sweep, ih _ (fun hmem => hc (List.mem_cons_of_mem _ hmem))]
      simp only []
      rw [if_neg hcol]

/-- If the state, the output and the driving signal are all zero, the sweep
keeps the state and the output at zero. -/
theorem sweep_zero (Ph Gam gp : _) (l : List ℕ) (X A : ℕ → ℕ → ℝ)
    (hX : ∀ k r, X k r = 0) (hA : ∀ r c, A r c = 0) (hgp : ∀ r c, gp r c = 0) :
    (∀ k r, (sweep Ph Gam gp l (X, A)).1 k r = 0)
      ∧ ∀ r c, (sweep Ph Gam gp l (X, A)).2 r c = 0 := by
  induction l generalizing X A with
  | nil => exact ⟨hX, hA⟩
  | cons col rest ih =>
      rw [sweep]
      refine ih _ _ (fun k r => ?_) (fun r c => ?_)
      · simp [stepX, hX, hgp]
      · simp only []
        split
        · simp [stepX, hX, hgp]
        · exact hA r c

theorem bindOk (a : ℕ → ℕ → ℝ) (g : (ℕ → ℕ → ℝ) → Except String Img) :
    Except.bind (Except.ok a) g = g a := rfl

theorem bindErr (e : String) (g : (ℕ → ℕ → ℝ) → Except String Img) :
    Except.bind (Except.error e) g = Except.error e := rfl

theorem inverse_ne_forward : ("inverse" : String) ≠ "forward" := by decide

theorem gammaOf_fwd (cols : ℕ) (dr : ℝ) : gammaOf cols dr "forward" = GammaFwd cols dr := by
  unfold gammaOf
  rw [if_pos rfl]

theorem gammaOf_not_fwd (cols : ℕ) (dr : ℝ) (direction : String)
    (hd : direction ≠ "forward") : gammaOf cols dr direction = GammaInv cols := by
  unfold gammaOf
  rw [if_neg hd]

theorem drivingSignal_fwd (cols : ℕ) (f : ℕ → ℕ → ℝ) (dr : ℝ) :
    drivingSignal cols f dr "forward" = Except.ok f := by
  unfold drivingSignal
  rw [if_pos rfl]

theorem drivingSignal_not_fwd (cols : ℕ) (f : ℕ → ℕ → ℝ) (dr : ℝ) (direction : String)
    (hd : direction ≠ "forward") : drivingSignal cols f dr direction = npGradient cols f dr := by
  unfold drivingSignal
  rw [if_neg hd]

/-- Any direction other than `"forward"` takes exactly the `else` branch of
line 137, i.e. computes the inverse transform. -/
theorem core_not_fwd (shifter : (ℕ → ℕ → ℝ) → ℝ → ℕ → ℕ → ℝ) (rows cols : ℕ)
    (f : ℕ → ℕ → ℝ) (dr : ℝ) (direction : String) (shift : ℝ)
    (hd : direction ≠ "forward") :
    hansenlaw_core shifter rows cols f dr direction shift
      = hansenlaw_core shifter rows cols f dr "inverse" shift := by
  unfold hansenlaw_core
  simp only [drivingSignal_not_fwd _ _ _ _ hd, gammaOf_not_fwd _ _ _ hd,
    drivingSignal_not_fwd _ _ _ _ inverse_ne_forward, gammaOf_not_fwd _ _ _ inverse_ne_forward]

/-- Evaluation of the core in the forward direction. -/
theorem core_fwd_eq (shifter : (ℕ → ℕ → ℝ) → ℝ → ℕ → ℕ → ℝ) (rows cols : ℕ)
    (f : ℕ → ℕ → ℝ) (dr : ℝ) (shift : ℝ) (hc : cols ≠ 0) :
    hansenlaw_core shifter rows cols f dr "forward" shift
      = Except.ok (outImg rows cols (sweepA cols (GammaFwd cols dr)
          (if |shift| > 1e-3 then shifter f shift else f))) := by
  unfold hansenlaw_core
  rw [if_neg hc, drivingSignal_fwd, gammaOf_fwd, bindOk]

/-- Evaluation of the core in the inverse direction when the gradient is
defined (`cols ≥ 2`). -/
theorem core_inv_eq (shifter : (ℕ → ℕ → ℝ) → ℝ → ℕ → ℕ → ℝ) (rows cols : ℕ)
    (f : ℕ → ℕ → ℝ) (dr : ℝ) (shift : ℝ) (hc2 : 2 ≤ cols) :
    hansenlaw_core shifter rows cols f dr "inverse" shift
      = Except.ok (outImg rows cols (sweepA cols (GammaInv cols)
          (if |shift| > 1e-3 then shifter (gradFun cols f dr) shift
           else gradFun cols f dr))) := by
  unfold hansenlaw_core
  rw [if_neg (by omega : ¬cols = 0), drivingSignal_not_fwd _ _ _ _ inverse_ne_forward,
    npGradient, if_neg (by omega : ¬cols < 2), gammaOf_not_fwd _ _ _ inverse_ne_forward, bindOk]

/-- The inverse direction with a single column raises the gradient error. -/
theorem core_inv_err (shifter : (ℕ → ℕ → ℝ) → ℝ → ℕ → ℕ → ℝ) (rows : ℕ)
    (f : ℕ → ℕ → ℝ) (dr : ℝ) (shift : ℝ) :
    hansenlaw_core shifter rows 1 f dr "inverse" shift = Except.error gradErrMsg := by
  unfold hansenlaw_core
  rw [if_neg (by omega : ¬(1 : ℕ) = 0), drivingSignal_not_fwd _ _ _ _ inverse_ne_forward,
    npGradient, if_pos (by omega : (1 : ℕ) < 2), bindErr]

/-- Shifts at or below the `1.0e-3` threshold skip the interpolation branch. -/
theorem shift_skip {s : ℝ} (hs : |s| ≤ 1e-3) (a b : ℕ → ℕ → ℝ) :
    (if |s| > 1e-3 then a else b) = b := if_neg (not_lt.mpr hs)

theorem abs_zero_le_thr : |(0 : ℝ)| ≤ 1e-3 := by
  rw [abs_zero]
  norm_num

theorem abs_thr_le_thr : |(1e-3 : ℝ)| ≤ 1e-3 := by
  rw [abs_of_nonneg (by norm_num : (0 : ℝ) ≤ 1e-3)]

/-- The discrete gradient of a constant array vanishes everywhere. -/
theorem gradFun_const (cols : ℕ) (cv : ℝ) (dr : ℝ) (r j : ℕ) :
    gradFun cols (fun _ _ => cv) dr r j = 0 := by
  unfold gradFun
  split
  · simp
  · split <;> simp

/-- A sweep over a zero driving signal yields an all-zero output array. -/
theorem sweepA_zero (cols : ℕ) (Gam gp : ℕ → ℕ → ℝ) (hgp : ∀ r c, gp r c = 0)
    (r c : ℕ) : sweepA cols Gam gp r c = 0 :=
  (sweep_zero (Phi cols) Gam gp (nList cols) _ _ (fun _ _ => rfl) (fun _ _ => rfl) hgp).2 r c

/-- An all-zero working array is returned as the all-zero image. -/
theorem outImg_zero (rows cols : ℕ) (A : ℕ → ℕ → ℝ) (hA : ∀ r c, A r c = 0) :
    outImg rows cols A = zeroImg rows cols := by
  unfold outImg zeroImg
  split
  · exact congrArg _ (funext fun j => hA 0 j)
  · exact congrArg _ (funext fun r => funext fun c => hA r c)

/-- With a single column the sweep list is empty and the output array stays
at its zero initialization. -/
theorem sweepA_one (Gam gp : ℕ → ℕ → ℝ) : sweepA 1 Gam gp = fun _ _ => 0 := rfl

/-!  Frame lemmas for the heap model. -/

theorem alloc_next (v : ℕ → ℕ → ℝ) (s : PyState) : (alloc v s).2.next = s.next + 1 := rfl

theorem alloc_mem_lt (v : ℕ → ℕ → ℝ) (s : PyState) (a : ℕ) (ha : a < s.next) :
    (alloc v s).2.mem a = s.mem a := by
  unfold alloc
  simp only []
  rw [if_neg (by omega : ¬a = s.next)]

theorem writeCol_next (a col : ℕ) (v : ℕ → ℝ) (s : PyState) :
    (writeCol a col v s).next = s.next := rfl

theorem writeCol_mem_ne (a col : ℕ) (v : ℕ → ℝ) (s : PyState) (b : ℕ) (hne : b ≠ a) :
    (writeCol a col v s).mem b = s.mem b := by
  unfold writeCol
  simp only []
  rw [if_neg hne]

theorem loopStep_next (aPhi aGam aAIM aGp col aX : ℕ) (s : PyState) :
    (loopStep aPhi aGam aAIM aGp col aX s).2.next = s.next + 1 := rfl

/-- One loop iteration writes only the fresh `X` array and the `AIM`
column: every other live address is untouched. -/
theorem loopStep_mem (aPhi aGam aAIM aGp col aX : ℕ) (s : PyState) (b : ℕ)
    (hb : b < s.next) (hbne : b ≠ aAIM) :
    (loopStep aPhi aGam aAIM aGp col aX s).2.mem b = s.mem b := by
  unfold loopStep
  dsimp only
  rw [writeCol_mem_ne _ _ _ _ _ hbne, alloc_mem_lt _ _ _ hb]

/-- The loop as a whole never writes to a live address other than `AIM`. -/
theorem loopPy_frame (aPhi aGam aAIM aGp : ℕ) (l : List ℕ) :
    ∀ (xs : ℕ × PyState) (b : ℕ), b < xs.2.next → b ≠ aAIM →
      (loopPy aPhi aGam aAIM aGp l xs).2.mem b = xs.2.mem b
        ∧ b < (loopPy aPhi aGam aAIM aGp l xs).2.next := by
  induction l with
  | nil => exact fun xs b hb _ => ⟨rfl, hb⟩
  | cons col rest ih =>
      intro xs b hb hbne
      rw [loopPy]
      obtain ⟨h1, h2⟩ := ih (loopStep aPhi aGam aAIM aGp col xs.1 xs.2) b
        (by rw [loopStep_next]; omega) hbne
      exact ⟨h1.trans (loopStep_mem _ _ _ _ _ _ _ _ hb hbne), h2⟩

/-- The tail (shift, `X` allocation, loop) never writes to a live address
other than `AIM`. -/
theorem runTail_frame (shifter : (ℕ → ℕ → ℝ) → ℝ → ℕ → ℕ → ℝ) (shift : ℝ)
    (aPhi aGam aAIM cols : ℕ) (gs : ℕ × PyState) (b : ℕ)
    (hb : b < gs.2.next) (hbne : b ≠ aAIM) :
    (runTail shifter shift aPhi aGam aAIM cols gs).mem b = gs.2.mem b := by
  unfold runTail
  by_cases hs : |shift| > 1e-3
  · rw [if_pos hs]
    dsimp only
    obtain ⟨h1, _⟩ := loopPy_frame aPhi aGam aAIM _ (nList cols)
      ((alloc (fun _ _ => 0) (alloc (shifter (gs.2.mem gs.1) shift) gs.2).2).1,
       (alloc (fun _ _ => 0) (alloc (shifter (gs.2.mem gs.1) shift) gs.2).2).2) b
      (by rw [alloc_next, alloc_next]; omega) hbne
    rw [h1, alloc_mem_lt _ _ _ (by rw [alloc_next]; omega), alloc_mem_lt _ _ _ hb]
  · rw [if_neg hs]
    dsimp only
    obtain ⟨h1, _⟩ := loopPy_frame aPhi aGam aAIM _ (nList cols)
      ((alloc (fun _ _ => 0) gs.2).1, (alloc (fun _ _ => 0) gs.2).2) b
      (by rw [alloc_next]; omega) hbne
    rw [h1, alloc_mem_lt _ _ _ hb]

/-- The sweep never writes the outer-edge column `cols - 1`. -/
theorem sweepA_edge (cols : ℕ) (Gam gp : ℕ → ℕ → ℝ) (r : ℕ) :
    sweepA cols Gam gp r (cols - 1) = 0 := by
  have hnm : cols - 1 ∉ nList cols := fun hmem => by
    have := nList_bound cols _ hmem
    omega
  unfold sweepA
  rw [sweep_snd_of_not_mem _ _ _ _ _ _ _ hnm]

/-- The forward transform of an all-zero image is the all-zero image
(in returned form). -/
theorem transform_two_zero_fwd (shifter : (ℕ → ℕ → ℝ) → ℝ → ℕ → ℕ → ℝ)
    (rows cols : ℕ) (dr : ℝ) (hc : cols ≠ 0) :
    hansenlaw_transform shifter (Img.two rows cols (fun _ _ => 0)) dr "forward" 0
      = Except.ok (zeroImg rows cols) := by
  unfold hansenlaw_transform
  dsimp only [Img.nrows2d, Img.ncols, Img.entry2d]
  rw [core_fwd_eq _ _ _ _ _ _ hc, shift_skip abs_zero_le_thr]
  exact congrArg _ (outImg_zero _ _ _ (fun r c => sweepA_zero _ _ _ (fun _ _ => rfl) r c))

/-- The inverse transform of an all-zero image with at least two columns is
the all-zero image (in returned form). -/
theorem transform_two_zero_inv (shifter : (ℕ → ℕ → ℝ) → ℝ → ℕ → ℕ → ℝ)
    (rows cols : ℕ) (dr : ℝ) (hc2 : 2 ≤ cols) :
    hansenlaw_transform shifter (Img.two rows cols (fun _ _ => 0)) dr "inverse" 0
      = Except.ok (zeroImg rows cols) := by
  unfold hansenlaw_transform
  dsimp only [Img.nrows2d, Img.ncols, Img.entry2d]
  rw [core_inv_eq _ _ _ _ _ _ hc2, shift_skip abs_zero_le_thr]
  exact congrArg _ (outImg_zero _ _ _
    (fun r c => sweepA_zero _ _ _ (fun r c => gradFun_const cols 0 dr r c) r c))

/-!  Claim theorems. -/

/-- Claim C10: for every image, `dr`, `direction` and `shift`, the call
leaves the caller's input array unchanged: in the heap model every write
targets a freshly allocated array (`AIM`, `Phi`, `Gamma`, the gradient,
the shifted signal, the rebound `X` arrays), never the input address —
even in the forward direction, where `gp` aliases the input. -/
theorem hansenlaw_input_unchanged (shifter : (ℕ → ℕ → ℝ) → ℝ → ℕ → ℕ → ℝ)
    (aIM cols : ℕ) (dr : ℝ) (direction : String) (shift : ℝ) (s0 : PyState)
    (hlive : aIM < s0.next) :
    (runPy shifter aIM cols dr direction shift s0).1.mem aIM = s0.mem aIM := by
  unfold runPy
  by_cases hc : cols = 0
  · rw [if_pos hc]
    dsimp only
    exact alloc_mem_lt _ _ _ hlive
  · rw [if_neg hc]
    dsimp only
    by_cases hd : direction = "forward"
    · rw [if_pos hd]
      dsimp only
      rw [runTail_frame _ _ _ _ _ _ _ _
        (by rw [alloc_next, alloc_next, alloc_next]; omega)
        (by show aIM ≠ s0.next; omega)]
      rw [alloc_mem_lt _ _ _ (by rw [alloc_next, alloc_next]; omega),
        alloc_mem_lt _ _ _ (by rw [alloc_next]; omega), alloc_mem_lt _ _ _ hlive]
    · rw [if_neg hd]
      by_cases hg : cols < 2
      · rw [npGradient, if_pos hg]
        dsimp only [Except.map]
        rw [alloc_mem_lt _ _ _ (by rw [alloc_next, alloc_next]; omega),
          alloc_mem_lt _ _ _ (by rw [alloc_next]; omega), alloc_mem_lt _ _ _ hlive]
      · rw [npGradient, if_neg hg]
        dsimp only [Except.map]
        rw [runTail_frame _ _ _ _ _ _ _ _
          (by rw [alloc_next, alloc_next, alloc_next, alloc_next]; omega)
          (by show aIM ≠ s0.next; omega)]
        rw [alloc_mem_lt _ _ _ (by rw [alloc_next, alloc_next, alloc_next]; omega),
          alloc_mem_lt _ _ _ (by rw [alloc_next, alloc_next]; omega),
          alloc_mem_lt _ _ _ (by rw [alloc_next]; omega), alloc_mem_lt _ _ _ hlive]

/-- Claim C10, witness: a concrete run (inverse direction, two columns, the
input array at address 0 of a one-array heap) leaves the input unchanged. -/
theorem hansenlaw_input_unchanged_witness :
    0 < 1
      ∧ (runPy (fun g _ => g) 0 2 1 "inverse" 0 ⟨1, fun _ _ _ => 0⟩).1.mem 0
          = (⟨1, fun _ _ _ => 0⟩ : PyState).mem 0 :=
  ⟨by decide, hansenlaw_input_unchanged (fun g _ => g) 0 2 1 "inverse" 0 ⟨1, fun _ _ _ => 0⟩
    (by decide)⟩

/-- Claim C9: any direction string other than `"forward"` (misspellings
included) produces exactly the same result as `"inverse"`: line 137 tests
only `direction == "forward"` and everything else falls into the `else`
branch. -/
theorem hansenlaw_nonforward_is_inverse (shifter : (ℕ → ℕ → ℝ) → ℝ → ℕ → ℕ → ℝ)
    (IM : Img) (dr shift : ℝ) (d : String) (hd : d ≠ "forward") :
    hansenlaw_transform shifter IM dr d shift
      = hansenlaw_transform shifter IM dr "inverse" shift := by
  unfold hansenlaw_transform
  exact core_not_fwd _ _ _ _ _ _ _ hd

/-- Claim C9, witness at the concrete direction `"sideways"`. -/
theorem hansenlaw_nonforward_is_inverse_witness :
    ("sideways" : String) ≠ "forward"
      ∧ hansenlaw_transform (fun g _ => g) (Img.two 1 2 (fun _ _ => 1)) 1 "sideways" 0
          = hansenlaw_transform (fun g _ => g) (Img.two 1 2 (fun _ _ => 1)) 1 "inverse" 0 :=
  ⟨by decide,
   hansenlaw_nonforward_is_inverse (fun g _ => g) (Img.two 1 2 (fun _ _ => 1)) 1 0 "sideways"
     (by decide)⟩

/-- Claim C1, counterexample: `transform(image, dr, "sideways", 0)` does not
fail — it returns a result (there is no direction validation in the code). -/
theorem hansenlaw_sideways_no_error :
    isOkB (hansenlaw_transform (fun g _ => g) (Img.two 1 2 (fun _ _ => 1)) 1 "sideways" 0)
      = true := by
  unfold hansenlaw_transform
  rw [core_not_fwd _ _ _ _ _ _ _ (by decide), core_inv_eq _ _ _ _ _ _ (by decide)]
  rfl

/-- Claim C1 (amended): a direction value that is not one of the two
recognized values does not raise `InvalidArgument` — the code performs no
direction validation and treats every unrecognized direction exactly as
`"inverse"`. -/
theorem hansenlaw_unrecognized_direction_runs_inverse
    (shifter : (ℕ → ℕ → ℝ) → ℝ → ℕ → ℕ → ℝ) (IM : Img) (dr shift : ℝ) (d : String)
    (hd : d ≠ "forward") (_hinv : d ≠ "inverse") :
    hansenlaw_transform shifter IM dr d shift
      = hansenlaw_transform shifter IM dr "inverse" shift := by
  unfold hansenlaw_transform
  exact core_not_fwd _ _ _ _ _ _ _ hd

/-- Claim C1, witness at the concrete unrecognized direction `"sideways"`. -/
theorem hansenlaw_unrecognized_direction_runs_inverse_witness :
    ("sideways" : String) ≠ "forward" ∧ ("sideways" : String) ≠ "inverse"
      ∧ hansenlaw_transform (fun g _ => g) (Img.one 3 (fun _ => 2)) 1 "sideways" 0
          = hansenlaw_transform (fun g _ => g) (Img.one 3 (fun _ => 2)) 1 "inverse" 0 :=
  ⟨by decide, by decide,
   hansenlaw_unrecognized_direction_runs_inverse (fun g _ => g) (Img.one 3 (fun _ => 2)) 1 0
     "sideways" (by decide) (by decide)⟩

/-- Claim C6: a shift with `|shift| ≤ 1.0e-3` gives exactly the result of
`shift = 0`: line 155 only applies the sub-pixel interpolation when
`abs(shift) > 1.0e-3`, so in both cases the driving signal is used as is —
for every image, `dr`, direction, and any shifter whatsoever. -/
theorem hansenlaw_small_shift_noop (shifter : (ℕ → ℕ → ℝ) → ℝ → ℕ → ℕ → ℝ)
    (IM : Img) (dr : ℝ) (d : String) (s : ℝ) (hs : |s| ≤ 1e-3) :
    hansenlaw_transform shifter IM dr d s = hansenlaw_transform shifter IM dr d 0 := by
  unfold hansenlaw_transform hansenlaw_core
  simp only [shift_skip hs, shift_skip abs_zero_le_thr]

/-- Claim C6, witness at the threshold value `shift = 1.0e-3` itself. -/
theorem hansenlaw_small_shift_noop_witness :
    |(1e-3 : ℝ)| ≤ 1e-3
      ∧ hansenlaw_transform (fun g _ => g) (Img.one 3 (fun _ => 1)) 1 "forward" 1e-3
          = hansenlaw_transform (fun g _ => g) (Img.one 3 (fun _ => 1)) 1 "forward" 0 :=
  ⟨abs_thr_le_thr,
   hansenlaw_small_shift_noop (fun g _ => g) (Img.one 3 (fun _ => 1)) 1 "forward" 1e-3
     abs_thr_le_thr⟩

/-- Claim C5: whenever the call returns a result, the last output column
`cols - 1` is identically zero: the sweep visits only columns
`cols-2, ..., 0` (line 124), so the outer edge keeps the zero it was
initialized with at line 114. -/
theorem hansenlaw_edge_column_zero (shifter : (ℕ → ℕ → ℝ) → ℝ → ℕ → ℕ → ℝ)
    (IM : Img) (dr : ℝ) (d : String) (s : ℝ) (out : Img)
    (hok : hansenlaw_transform shifter IM dr d s = Except.ok out) :
    lastColZero out := by
  unfold hansenlaw_transform hansenlaw_core at hok
  by_cases hc : IM.ncols = 0
  · rw [if_pos hc] at hok
    simp at hok
  · rw [if_neg hc] at hok
    rcases hds : drivingSignal IM.ncols IM.entry2d dr d with e | gpRaw
    · rw [hds, bindErr] at hok
      simp at hok
    · rw [hds, bindOk] at hok
      injection hok with hout
      subst hout
      unfold outImg
      split
      · show sweepA IM.ncols _ _ 0 (IM.ncols - 1) = 0
        exact sweepA_edge _ _ _ 0
      · intro i
        exact sweepA_edge _ _ _ i

/-- Claim C5, witness: a concrete successful call whose output has a zero
edge column. -/
theorem hansenlaw_edge_column_zero_witness :
    hansenlaw_transform (fun g _ => g) (Img.two 1 2 (fun _ _ => 0)) 1 "forward" 0
        = Except.ok (zeroImg 1 2)
      ∧ lastColZero (zeroImg 1 2) :=
  ⟨transform_two_zero_fwd (fun g _ => g) 1 2 1 (by decide),
   hansenlaw_edge_column_zero (fun g _ => g) (Img.two 1 2 (fun _ _ => 0)) 1 "forward" 0 _
     (transform_two_zero_fwd (fun g _ => g) 1 2 1 (by decide))⟩

/-- Claim C7, counterexample: the claim includes `cols = 1` for the inverse
direction, but there `np.gradient` raises (it needs at least 2 samples), so
even the all-zero `(1, 1)` image does not transform to zeros. -/
theorem hansenlaw_zero_input_cols1_raises :
    hansenlaw_transform (fun g _ => g) (Img.two 1 1 (fun _ _ => 0)) 1 "inverse" 0
      = Except.error gradErrMsg := by
  unfold hansenlaw_transform
  dsimp only [Img.nrows2d, Img.ncols, Img.entry2d]
  exact core_inv_err _ _ _ _ _

/-- Claim C7 (amended): transforming an all-zero `(rows, cols)` image with
`shift = 0` returns the all-zero result — always for the forward direction,
and for the inverse direction when `cols ≥ 2`; for `cols = 1` the inverse
direction raises the gradient error.  (When `rows = 1` the zero result is
returned flattened to 1D, see claim C3.) -/
theorem hansenlaw_zero_input (shifter : (ℕ → ℕ → ℝ) → ℝ → ℕ → ℕ → ℝ)
    (rows cols : ℕ) (dr : ℝ) (_hr : 1 ≤ rows) (hc : 1 ≤ cols) (_hdr : (0 : ℝ) < dr) :
    hansenlaw_transform shifter (Img.two rows cols (fun _ _ => 0)) dr "forward" 0
        = Except.ok (zeroImg rows cols)
      ∧ (2 ≤ cols →
          hansenlaw_transform shifter (Img.two rows cols (fun _ _ => 0)) dr "inverse" 0
            = Except.ok (zeroImg rows cols))
      ∧ (cols = 1 →
          hansenlaw_transform shifter (Img.two rows cols (fun _ _ => 0)) dr "inverse" 0
            = Except.error gradErrMsg) := by
  refine ⟨transform_two_zero_fwd shifter rows cols dr (by omega),
    fun hc2 => transform_two_zero_inv shifter rows cols dr hc2, fun hc1 => ?_⟩
  subst hc1
  unfold hansenlaw_transform
  dsimp only [Img.nrows2d, Img.ncols, Img.entry2d]
  exact core_inv_err _ _ _ _ _

/-- Claim C7, witness at the concrete shape `(2, 2)` with `dr = 1`. -/
theorem hansenlaw_zero_input_witness :
    1 ≤ 2 ∧ (0 : ℝ) < 1
      ∧ (hansenlaw_transform (fun g _ => g) (Img.two 2 2 (fun _ _ => 0)) 1 "forward" 0
            = Except.ok (zeroImg 2 2)
          ∧ (2 ≤ 2 →
              hansenlaw_transform (fun g _ => g) (Img.two 2 2 (fun _ _ => 0)) 1 "inverse" 0
                = Except.ok (zeroImg 2 2))
          ∧ (2 = 1 →
              hansenlaw_transform (fun g _ => g) (Img.two 2 2 (fun _ _ => 0)) 1 "inverse" 0
                = Except.error gradErrMsg)) :=
  ⟨by decide, one_pos,
   hansenlaw_zero_input (fun g _ => g) 2 2 1 (by decide) (by decide) one_pos⟩

/-- Claim C8, counterexample: the claim includes `cols = 1`, but there the
inverse direction raises the gradient error instead of returning zeros. -/
theorem hansenlaw_const_cols1_raises :
    hansenlaw_transform (fun g _ => g) (Img.two 1 1 (fun _ _ => 7)) 1 "inverse" 0
      = Except.error gradErrMsg := by
  unfold hansenlaw_transform
  dsimp only [Img.nrows2d, Img.ncols, Img.entry2d]
  exact core_inv_err _ _ _ _ _

/-- Claim C8 (amended): for `cols ≥ 2`, the inverse transform of the
constant image `full(rows, cols, c)` with `shift = 0` is the all-zero
result, because the column-wise gradient of a constant array vanishes;
for `cols = 1` the gradient raises instead.  (When `rows = 1` the zero
result is returned flattened to 1D, see claim C3.) -/
theorem hansenlaw_constant_inverse_zero (shifter : (ℕ → ℕ → ℝ) → ℝ → ℕ → ℕ → ℝ)
    (rows cols : ℕ) (cv dr : ℝ) (_hr : 1 ≤ rows) (hc2 : 2 ≤ cols) (_hdr : (0 : ℝ) < dr) :
    hansenlaw_transform shifter (Img.two rows cols (fun _ _ => cv)) dr "inverse" 0
      = Except.ok (zeroImg rows cols) := by
  unfold hansenlaw_transform
  dsimp only [Img.nrows2d, Img.ncols, Img.entry2d]
  rw [core_inv_eq _ _ _ _ _ _ hc2, shift_skip abs_zero_le_thr]
  exact congrArg _ (outImg_zero _ _ _
    (fun r c => sweepA_zero _ _ _ (fun r c => gradFun_const cols cv dr r c) r c))

/-- Claim C8, witness at the constant `c = 7`, shape `(2, 2)`, `dr = 1`. -/
theorem hansenlaw_constant_inverse_zero_witness :
    1 ≤ 2 ∧ 2 ≤ 2 ∧ (0 : ℝ) < 1
      ∧ hansenlaw_transform (fun g _ => g) (Img.two 2 2 (fun _ _ => 7)) 1 "inverse" 0
          = Except.ok (zeroImg 2 2) :=
  ⟨by decide, by decide, one_pos,
   hansenlaw_constant_inverse_zero (fun g _ => g) 2 2 7 1 (by decide) (by decide) one_pos⟩

/-- Claim C4, counterexample: with `cols = 1` the inverse direction does not
succeed — `np.gradient` raises because the column axis has fewer than 2
samples. -/
theorem hansenlaw_width1_inverse_raises :
    hansenlaw_transform (fun g _ => g) (Img.one 1 (fun _ => 5)) 1 "inverse" 0
      = Except.error gradErrMsg := by
  unfold hansenlaw_transform
  dsimp only [Img.nrows2d, Img.ncols, Img.entry2d]
  exact core_inv_err _ _ _ _ _

/-- Claim C4 (amended): with `cols = 1`, the forward transform succeeds and
returns the all-zero output (the sweep performs zero steps), but the
inverse transform raises the gradient error. -/
theorem hansenlaw_width1 (shifter : (ℕ → ℕ → ℝ) → ℝ → ℕ → ℕ → ℝ)
    (IM : Img) (dr : ℝ) (hc : IM.ncols = 1) :
    hansenlaw_transform shifter IM dr "forward" 0 = Except.ok (zeroImg IM.nrows2d 1)
      ∧ hansenlaw_transform shifter IM dr "inverse" 0 = Except.error gradErrMsg := by
  constructor
  · unfold hansenlaw_transform
    rw [hc, core_fwd_eq _ _ _ _ _ _ (by omega), shift_skip abs_zero_le_thr, sweepA_one]
    exact congrArg _ (outImg_zero _ _ _ (fun _ _ => rfl))
  · unfold hansenlaw_transform
    rw [hc]
    exact core_inv_err _ _ _ _ _

/-- Claim C4, witness at the concrete 1D length-1 input `[5]`. -/
theorem hansenlaw_width1_witness :
    Img.ncols (Img.one 1 (fun _ => 5)) = 1
      ∧ (hansenlaw_transform (fun g _ => g) (Img.one 1 (fun _ => 5)) 1 "forward" 0
            = Except.ok (zeroImg 1 1)
          ∧ hansenlaw_transform (fun g _ => g) (Img.one 1 (fun _ => 5)) 1 "inverse" 0
            = Except.error gradErrMsg) :=
  ⟨rfl, hansenlaw_width1 (fun g _ => g) (Img.one 1 (fun _ => 5)) 1 rfl⟩

/-- Claim C3, counterexample: a 2D input of shape `(1, 2)` does not come
back as a 2D `(1, 2)` array — line 164 flattens whenever the working array
has a single row, so the output is 1D of length 2. -/
theorem hansenlaw_singlerow_flattened :
    hansenlaw_transform (fun g _ => g) (Img.two 1 2 (fun _ _ => 0)) 1 "forward" 0
        = Except.ok (Img.one 2 (fun _ => 0))
      ∧ shapeOf (Img.one 2 (fun _ => 0)) ≠ [1, 2] := by
  constructor
  · refine (transform_two_zero_fwd (fun g _ => g) 1 2 1 (by decide)).trans ?_
    unfold zeroImg
    rw [if_pos rfl]
  · decide

/-- Claim C3 (amended): whenever the call returns a result, its shape is
determined by the input as follows: a 1D input of length `cols` yields a 1D
output of length `cols`; a 2D input of shape `(rows, cols)` with `rows ≥ 2`
yields a 2D output of shape `(rows, cols)`; a 2D input with `rows = 1` is
returned flattened, as a 1D output of length `cols`. -/
theorem hansenlaw_shape (shifter : (ℕ → ℕ → ℝ) → ℝ → ℕ → ℕ → ℝ)
    (IM : Img) (dr : ℝ) (d : String) (s : ℝ) (out : Img)
    (hok : hansenlaw_transform shifter IM dr d s = Except.ok out) :
    shapeOf out = expectedShape IM := by
  unfold hansenlaw_transform hansenlaw_core at hok
  by_cases hc : IM.ncols = 0
  · rw [if_pos hc] at hok
    simp at hok
  · rw [if_neg hc] at hok
    rcases hds : drivingSignal IM.ncols IM.entry2d dr d with e | gpRaw
    · rw [hds, bindErr] at hok
      simp at hok
    · rw [hds, bindOk] at hok
      injection hok with hout
      subst hout
      cases IM with
      | one len v =>
          unfold outImg
          dsimp only [Img.nrows2d, Img.ncols]
          rw [if_pos rfl]
          rfl
      | two r c v =>
          unfold outImg expectedShape
          dsimp only [Img.nrows2d, Img.ncols]
          by_cases hr : r = 1
          · rw [if_pos hr, if_pos hr]
            rfl
          · rw [if_neg hr, if_neg hr]
            rfl

/-- Claim C3, witness: a concrete successful call whose output has the
expected shape. -/
theorem hansenlaw_shape_witness :
    hansenlaw_transform (fun g _ => g) (Img.two 2 2 (fun _ _ => 0)) 1 "forward" 0
        = Except.ok (zeroImg 2 2)
      ∧ shapeOf (zeroImg 2 2) = expectedShape (Img.two 2 2 (fun _ _ => 0)) :=
  ⟨transform_two_zero_fwd (fun g _ => g) 2 2 1 (by decide),
   hansenlaw_shape (fun g _ => g) (Img.two 2 2 (fun _ _ => 0)) 1 "forward" 0 _
     (transform_two_zero_fwd (fun g _ => g) 2 2 1 (by decide))⟩

/-- Claim C2, counterexample: with `cols = 3`, the update performed while
writing output column `n = 0` multiplies the state at mode `k = 1` by
`Phi[0, 1] = 2 ^ lam[1]` — not by `ratio(0) ^ lam[1] = (3/2) ^ lam[1]` as
the claim's `ratio(n) = (cols-n)/(cols-n-1)` prescribes. -/
theorem hansenlaw_spec_ratio_refuted :
    stepX (Phi 3) (GammaInv 3) (fun _ _ => 0) 0 (fun _ _ => 1) 1 0
      ≠ ratioSpecC2 3 0 ^ lam 1 * (fun (_ _ : ℕ) => (1 : ℝ)) 1 0
          + GammaInv 3 0 1 * (fun (_ _ : ℕ) => (0 : ℝ)) 0 0 := by
  intro heq
  simp only [stepX, mul_one, mul_zero, add_zero] at heq
  rw [show Phi 3 0 1 = ratioArr 3 0 ^ lam 1 from by unfold Phi; rw [if_neg (by omega)]] at heq
  rw [show ratioArr 3 0 = (2 : ℝ) from by rw [ratioArr_eq]; norm_num] at heq
  rw [show ratioSpecC2 3 0 = ((3 : ℝ) / 2) from by unfold ratioSpecC2; norm_num] at heq
  have hlog := congrArg Real.log heq
  rw [Real.log_rpow (by norm_num), Real.log_rpow (by norm_num)] at hlog
  have hll : Real.log 2 = Real.log ((3 : ℝ) / 2) :=
    mul_left_cancel₀ (show lam 1 ≠ 0 by rw [show lam 1 = (-2.1 : ℝ) from rfl]; norm_num) hlog
  have hexp := congrArg Real.exp hll
  rw [Real.exp_log (by norm_num), Real.exp_log (by norm_num)] at hexp
  norm_num at hexp

/-- Claim C2 (amended): for `cols ≥ 2` and `0 ≤ n ≤ cols-2`, column `n` is
visited by the sweep and the update writing it multiplies the state
elementwise by `Phi[n]` and adds `Gamma[n]` times the driving signal at
column `n` — but because the factor arrays are generated for descending
column values and then indexed positionally, the ratio underlying `Phi[n]`
and `Gamma[n]` is `(n+2)/(n+1)` with denominator term `n+1`, not
`(cols-n)/(cols-n-1)`: `Phi[n,0] = 1`, `Phi[n,k] = ((n+2)/(n+1)) ^ lam[k]`
for `k ≥ 1`, `denom[n] = n+1`, and (inverse direction, mode 0)
`Gamma[n,0] = -h[0] * ln((n+2)/(n+1))`. -/
theorem hansenlaw_recurrence_factors (cols n : ℕ) (hn : n + 2 ≤ cols) :
    n ∈ nList cols
      ∧ Phi cols n 0 = 1
      ∧ (∀ k, 1 ≤ k → Phi cols n k = (((n : ℝ) + 2) / ((n : ℝ) + 1)) ^ lam k)
      ∧ ((denomArr cols n : ℤ) : ℝ) = (n : ℝ) + 1
      ∧ GammaInv cols n 0 = -(h 0 * Real.log (((n : ℝ) + 2) / ((n : ℝ) + 1)))
      ∧ ∀ (Gam gp X : ℕ → ℕ → ℝ) (k r : ℕ),
          stepX (Phi cols) Gam gp n X k r = Phi cols n k * X k r + Gam n k * gp r n := by
  refine ⟨mem_nList cols n hn, by unfold Phi; rw [if_pos rfl], fun k hk => ?_, ?_, ?_,
    fun Gam gp X k r => rfl⟩
  · unfold Phi
    rw [if_neg (by omega), ratioArr_eq]
  · rw [denomArr_eq]
    push_cast
    ring
  · unfold GammaInv
    rw [if_pos rfl, ratioArr_eq]

/-- Claim C2, witness at `cols = 3`, `n = 0`. -/
theorem hansenlaw_recurrence_factors_witness :
    0 + 2 ≤ 3
      ∧ (0 ∈ nList 3
          ∧ Phi 3 0 0 = 1
          ∧ (∀ k, 1 ≤ k → Phi 3 0 k = ((((0 : ℕ) : ℝ) + 2) / (((0 : ℕ) : ℝ) + 1)) ^ lam k)
          ∧ ((denomArr 3 0 : ℤ) : ℝ) = ((0 : ℕ) : ℝ) + 1
          ∧ GammaInv 3 0 0 = -(h 0 * Real.log ((((0 : ℕ) : ℝ) + 2) / (((0 : ℕ) : ℝ) + 1)))
          ∧ ∀ (Gam gp X : ℕ → ℕ → ℝ) (k r : ℕ),
              stepX (Phi 3) Gam gp 0 X k r = Phi 3 0 k * X k r + Gam 0 k * gp r 0) :=
  ⟨by decide, hansenlaw_recurrence_factors 3 0 (by decide)⟩

